import Mathlib

/-!
Formal model of `src/index.js` (bmcmahen/editable): an in-place rich-text
editing controller for a single DOM element, with an undo/redo history stack
and caret capture/restore across content mutations.

The controller (`Editable`), its event handlers, `undo`/`redo`/`state`/
`contents`/`addToHistory`, and the caret codec (`position` / `visit`) are
embedded from the source.  The `history` module that `src/index.js` requires
is not part of `src/`; its operations are modelled from the specification
(section 4.2) and are marked `Modelled from the spec:` below.

Note on the source: line 284 spells `function` as `funciton`; the intended
assignment `Editable.prototype.addToHistory = function(){...}` is what is
modelled.  The session flags `isFirstUndo` and `pushedToHistory` are read
before they are ever assigned, so their initial JavaScript value `undefined`
is modelled as `false`.
-/

/-- A history snapshot: `addToHistory` stores `new String(this.toString())`
with a `.at` property holding the captured caret offset (named `atOffset`
here because `at` is a Lean keyword). -/
structure Snapshot where
  content : String
  atOffset : Nat
deriving Repr, DecidableEq

/-- Modelled from the spec: the `history` module required by `src/index.js` is
not under `src/`.  Spec section 4.2/3: a History owns `vals` (the ordered
snapshot sequence), a cursor index `i` (`-1` when empty, otherwise
`0 ≤ i < length`), and a `capacity` (a default-like value, e.g. 100, set at
construction and adjustable via `max`). -/
structure History where
  vals : List Snapshot
  i : Int
  capacity : Nat
deriving Repr, DecidableEq

/-- Modelled from the spec: construction (`new History(stack || [])`) either
creates the stack empty (`i = -1`) or pre-seeds it from a caller-provided
sequence, with `i` at the last index. -/
def History.init (stack : List Snapshot) : History :=
  { vals := stack, i := (stack.length : Int) - 1, capacity := 100 }

/-- Modelled from the spec: `max(n)` / `setCapacity(n)` sets the capacity for
future adds, without retroactive eviction. -/
def History.max (h : History) (n : Nat) : History :=
  { h with capacity := n }

/-- Modelled from the spec: `add` truncates everything after `i` when `i` is
not at the tail, appends the snapshot, sets `i` to the last index, and when
the length exceeds the capacity evicts from the front, shifting `i` by the
eviction count. -/
def History.add (h : History) (s : Snapshot) : History :=
  let kept := if h.i < 0 then [] else h.vals.take (h.i.toNat + 1)
  let appended := kept ++ [s]
  let dropped := appended.length - h.capacity
  { vals := appended.drop dropped
    i := (appended.length : Int) - 1 - (dropped : Int)
    capacity := h.capacity }

/-- Modelled from the spec: `prev` / `stepBack` fails (returns nothing, no
state change) when `i ≤ 0`; otherwise it decrements `i` and returns the
snapshot at the new `i`. -/
def History.prev (h : History) : History × Option Snapshot :=
  if h.i ≤ 0 then (h, none)
  else ({ h with i := h.i - 1 }, h.vals.get? (h.i - 1).toNat)

/-- Modelled from the spec: `next` / `stepForward` fails (returns nothing, no
state change) when `i ≥ lastIndex`; otherwise it increments `i` and returns
the snapshot at the new `i`. -/
def History.next (h : History) : History × Option Snapshot :=
  if (h.vals.length : Int) - 1 ≤ h.i then (h, none)
  else ({ h with i := h.i + 1 }, h.vals.get? (h.i + 1).toNat)

/-- The bound DOM element, abstracted at the controller boundary: its
serialized contents (`innerHTML`) and the current caret as a global
flattened-text offset — what `position(el)` reads and `position(el, at)`
writes.  The node-level behaviour of the codec is modelled separately on
`DomNode` trees below. -/
structure El where
  html : String
  cursor : Nat
deriving Repr, DecidableEq

/-- Controller state from `function Editable(el, stack)`: the constructor sets
`history` (a `History` over the stack, then `.max(100)`) and `el`.  The
session flags `isFirstUndo` and `pushedToHistory` are never initialized
(JavaScript `undefined`, falsy), modelled as `false`.  `emitted` traces the
event names passed to `this.emit(...)`, in order. -/
structure Editable where
  history : History
  el : El
  isFirstUndo : Bool
  pushedToHistory : Bool
  emitted : List String
deriving Repr, DecidableEq

/-- `this.emit(name)`: append the event name to the emission trace. -/
def Editable.emit (e : Editable) (name : String) : Editable :=
  { e with emitted := e.emitted ++ [name] }

/-- The constructor body on the `new` path with a non-null element:
`this.history = new History(stack || []); this.history.max(100);
this.el = el`. -/
def mkEditable (el : El) (stack : List Snapshot) : Editable :=
  { history := (History.init stack).max 100
    el := el
    isFirstUndo := false
    pushedToHistory := false
    emitted := [] }

/-- `function Editable(el, stack)` invoked with `new`: `this instanceof
Editable` holds, so the guard is skipped; a missing `el` throws
`TypeError('expects an element')`. -/
def editableCtor (el : Option El) (stack : List Snapshot) : Except String Editable :=
  match el with
  | none => Except.error "expects an element"
  | some e => Except.ok (mkEditable e stack)

/-- `Editable(el, stack)` invoked as a plain function: `this instanceof
Editable` is false, so the body returns `new Editable(el, stack)`. -/
def editableFn (el : Option El) (stack : List Snapshot) : Except String Editable :=
  editableCtor el stack

/-- `contents` (aliased as `toString`): returns `this.el.innerHTML`.  The
function declares no parameters and never writes to the element. -/
def Editable.contents (e : Editable) : String := e.el.html

/-- Calling `contents` with an argument: JavaScript ignores surplus arguments,
so the controller is unchanged and the current `innerHTML` is returned. -/
def Editable.contentsWith (e : Editable) (s : String) : Editable × String :=
  (e, e.el.html)

/-- `addToHistory()`: `var buf = new String(this.toString());
buf.at = position(this.el); this.history.add(buf)`. -/
def Editable.addToHistory (e : Editable) : Editable :=
  { e with history := e.history.add { content := e.el.html, atOffset := e.el.cursor } }

/-- `undo()`.  The second component records the JavaScript return value:
`true` for `return this`, `false` for the bare `return` (undefined) taken on
the empty branch.  When `isFirstUndo` is set the current state is pushed and
`i` stepped back before the retrieved contents are applied — but note that
nothing in the source ever sets `isFirstUndo` to `true`. -/
def Editable.undo (e : Editable) : Editable × Bool :=
  let pr := if e.isFirstUndo
    then (e.history, e.history.vals.get? (e.history.vals.length - 1))
    else e.history.prev
  match pr.2 with
  | none => ({ e with history := pr.1 }, false)
  | some buf =>
      let e1 : Editable := { e with history := pr.1 }
      let e2 : Editable :=
        if e1.isFirstUndo then
          let e' := e1.addToHistory
          { e' with
              history := { e'.history with i := e'.history.i - 1 }
              isFirstUndo := false }
        else e1
      let e3 : Editable := { e2 with el := { html := buf.content, cursor := buf.atOffset } }
      (e3.emit "state", true)

/-- `redo()`: step forward; on the empty branch return `this` unchanged,
otherwise apply the snapshot, restore the caret, and emit `state`. -/
def Editable.redo (e : Editable) : Editable × Bool :=
  let pr := e.history.next
  match pr.2 with
  | none => ({ e with history := pr.1 }, true)
  | some buf =>
      let e3 : Editable :=
        { e with
            history := pr.1
            el := { html := buf.content, cursor := buf.atOffset } }
      (e3.emit "state", true)

/-- `state(cmd)`: `"undo"` and `"redo"` are answered from the history stack
(`0 < i` resp. `vals.length - 1 > i`); any other command is delegated to the
host facility `document.queryCommandState`, modelled by the `host`
argument. -/
def Editable.state (e : Editable) (host : String → Bool) (cmd : String) : Bool :=
  let length : Int := (e.history.vals.length : Int) - 1
  if cmd = "undo" then decide (0 < e.history.i)
  else if cmd = "redo" then decide (length > e.history.i)
  else host cmd

/-- `onkeypress`: on the first key press of a burst (`pushedToHistory` falsy)
push the current state, emit `change`, and set the flag; otherwise do
nothing. -/
def Editable.onkeypress (e : Editable) : Editable :=
  if !e.pushedToHistory then
    { (e.addToHistory.emit "change") with pushedToHistory := true }
  else e

/-- `onchange`: emit `change` and (re)schedule the debounced autosave; the
scheduling itself is the external debouncer's concern. -/
def Editable.onchange (e : Editable) : Editable :=
  e.emit "change"

/-- The debounced autosave callback scheduled by `onchange` firing:
`self.pushedToHistory = false; self.emit('save')`. -/
def Editable.autosaveFire (e : Editable) : Editable :=
  ({ e with pushedToHistory := false }).emit "save"

/-- A DOM node as the caret codec sees it: a text node (`nodeType == 3`) or an
element with an ordered child list.  Only text nodes carry measurable
length. -/
inductive DomNode where
  | text (s : String)
  | elem (children : List DomNode)
deriving Repr

/-- The flattened text-node contents of a node list, in document order
(pre-order): the concatenation source for "flattened text content". -/
def textsOf : List DomNode → List String
  | [] => []
  | DomNode.text s :: rest => s :: textsOf rest
  | DomNode.elem cs :: rest => textsOf cs ++ textsOf rest

/-- `node.childNodes` of the root handed to `visit`. -/
def childNodes : DomNode → List DomNode
  | DomNode.text _ => []
  | DomNode.elem cs => cs

/-- Sum of the lengths of a flattened text-node list. -/
def sumLens (ts : List String) : Nat := (ts.map String.length).sum

/-- Cumulative flattened length of the first `k` text nodes. -/
def cumLens (ts : List String) (k : Nat) : Nat := sumLens (ts.take k)

/-- The flattened text-node list under a root element (its contents). -/
def textNodesUnder (root : DomNode) : List String := textsOf (childNodes root)

/-- Traversal state of `position(el, at)`: the running `length`, the `abort`
flag, the placed caret (`res`, as a pair of the text node's index in document
order and the local offset `at - sub`), and the index of the next text node
to be visited. -/
structure RState where
  length : Nat
  abort : Bool
  res : Option (Nat × Nat)
  idx : Nat
deriving Repr, DecidableEq

/-- The `visit` loop of `position(el, at)` over a sibling list, faithful to
the source: the callback adds every text node's length; the first text node
whose running length reaches `tgt` (with `abort` still unset) sets the caret
at local offset `tgt - sub` (`sub` being the length before that node), sets
`abort` and returns `true`, which `visit` turns into a `break` of the current
sibling loop only — ancestor levels keep iterating, with the callback doing
nothing further because `abort` is set. -/
def visitList (tgt : Nat) : List DomNode → RState → RState
  | [], st => st
  | DomNode.text s :: rest, st =>
      let total := st.length + s.length
      if tgt ≤ total ∧ st.abort = false then
        { length := total, abort := true, res := some (st.idx, tgt - st.length), idx := st.idx + 1 }
      else visitList tgt rest { st with length := total, idx := st.idx + 1 }
  | DomNode.elem cs :: rest, st =>
      visitList tgt rest (visitList tgt cs st)

/-- The restore half of `position(el, at)`: run `visit` over the root's
children from the empty state and report where the caret was placed (`none`
models "no selection change", e.g. an offset beyond the total text length). -/
def restoreRes (root : DomNode) (tgt : Nat) : Option (Nat × Nat) :=
  (visitList tgt (childNodes root) { length := 0, abort := false, res := none, idx := 0 }).res

/-- A selection boundary point: a text node, identified by its index in the
document-order text-node list of the root, and a local character offset. -/
structure SelPoint where
  node : Nat
  off : Nat
deriving Repr, DecidableEq

/-- A live selection: start and end boundary points (equal when collapsed). -/
structure Selection where
  startP : SelPoint
  endP : SelPoint
deriving Repr, DecidableEq

/-- Global flattened-text offset of a boundary point. -/
def offsetOfPoint (ts : List String) (p : SelPoint) : Nat :=
  cumLens ts p.node + p.off

/-- The capture half of `position(el)`: the clone range spans from the start
of the root's contents to the selection end, so `clone.toString().length` is
the global flattened-text offset of the selection end.  Only the end boundary
is read. -/
def positionCapture (root : DomNode) (sel : Selection) : Nat :=
  offsetOfPoint (textNodesUnder root) sel.endP

/-- Restoring as a selection: `range.setStart(node, x); range.setEnd(node, x)`
places a collapsed selection at the located point. -/
def restoreSel (root : DomNode) (tgt : Nat) : Option Selection :=
  (restoreRes root tgt).map (fun p =>
    { startP := { node := p.1, off := p.2 }, endP := { node := p.1, off := p.2 } })

/-- The declarative description of restore from the spec and claim: scan the
flattened text-node list with running cumulative length `acc` and node index
`idx`; the first node whose cumulative length reaches the target wins, and
the local offset is the target minus the cumulative length before that
node. -/
def findFrom (tgt : Nat) : Nat → Nat → List String → Option (Nat × Nat)
  | _, _, [] => none
  | acc, idx, s :: rest =>
      if tgt ≤ acc + s.length then some (idx, tgt - acc)
      else findFrom tgt (acc + s.length) (idx + 1) rest

/-- Controller-level input events relevant to history coalescing: a key press
(`onkeypress`, also synthesized by `onkeydown` for deletion keys) and the
firing of the debounced autosave callback scheduled by `onchange`. -/
inductive Ev where
  | keypress
  | fire
deriving Repr, DecidableEq

/-- One controller step per event. -/
def stepEv (e : Editable) : Ev → Editable
  | Ev.keypress => e.onkeypress
  | Ev.fire => e.autosaveFire

/-- Run a sequence of events through the controller. -/
def runEv : Editable → List Ev → Editable
  | e, [] => e
  | e, ev :: rest => runEv (stepEv e ev) rest

/-- Number of history entries recorded by key presses along a run:
`onkeypress` calls `addToHistory` exactly when `pushedToHistory` is still
false (see `onkeypress_records` / `onkeypress_skips` below). -/
def countRecords : Editable → List Ev → Nat
  | _, [] => 0
  | e, Ev.keypress :: rest =>
      (if e.pushedToHistory then 0 else 1) + countRecords e.onkeypress rest
  | e, Ev.fire :: rest => countRecords e.autosaveFire rest

/-- History-stack states reachable through the stack's public lifecycle:
construction, capacity setting, `add`, `prev` and `next`. -/
inductive ReachableHistory : History → Prop where
  | init : ∀ stack, ReachableHistory (History.init stack)
  | max : ∀ h n, ReachableHistory h → ReachableHistory (History.max h n)
  | add : ∀ h s, ReachableHistory h → ReachableHistory (History.add h s)
  | prev : ∀ h, ReachableHistory h → ReachableHistory (History.prev h).1
  | next : ∀ h, ReachableHistory h → ReachableHistory (History.next h).1

theorem sumLens_nil : sumLens [] = 0 := rfl

theorem sumLens_cons (s : String) (ts : List String) :
    sumLens (s :: ts) = s.length + sumLens ts := by
  simp [sumLens]

theorem sumLens_append (xs ys : List String) :
    sumLens (xs ++ ys) = sumLens xs + sumLens ys := by
  simp [sumLens]

theorem findFrom_append_some (tgt : Nat) (xs ys : List String) :
    ∀ acc idx p, findFrom tgt acc idx xs = some p →
      findFrom tgt acc idx (xs ++ ys) = some p := by
  induction xs with
  | nil => intro acc idx p h; simp [findFrom] at h
  | cons s rest ih =>
      intro acc idx p h
      rw [List.cons_append, findFrom] at *
      by_cases hc : tgt ≤ acc + s.length
      · rw [if_pos hc] at h ⊢; exact h
      · rw [if_neg hc] at h ⊢; exact ih _ _ _ h

theorem findFrom_append_none (tgt : Nat) (xs ys : List String) :
    ∀ acc idx, findFrom tgt acc idx xs = none →
      findFrom tgt acc idx (xs ++ ys) =
        findFrom tgt (acc + sumLens xs) (idx + xs.length) ys := by
  induction xs with
  | nil => intro acc idx _; simp [sumLens]
  | cons s rest ih =>
      intro acc idx h
      rw [List.cons_append, findFrom] at *
      by_cases hc : tgt ≤ acc + s.length
      · rw [if_pos hc] at h; exact absurd h (by simp)
      · rw [if_neg hc] at h ⊢
        have e1 : acc + s.length + sumLens rest = acc + sumLens (s :: rest) := by
          rw [sumLens_cons]; omega
        have e2 : idx + 1 + rest.length = idx + (s :: rest).length := by
          simp only [List.length_cons]; omega
        rw [ih _ _ h, e1, e2]

theorem visitList_abort (tgt : Nat) (ns : List DomNode) (st : RState) :
    st.abort = true →
    (visitList tgt ns st).res = st.res ∧ (visitList tgt ns st).abort = true := by
  induction ns, st using visitList.induct tgt with
  | case1 st => intro hab; rw [visitList]; exact ⟨rfl, hab⟩
  | case2 s rest st total h =>
      intro hab; rw [h.2] at hab; exact absurd hab (by simp)
  | case3 s rest st total h ih =>
      intro hab
      rw [visitList, if_neg h]
      exact ih hab
  | case4 cs rest st ih1 ih2 =>
      intro hab
      rw [visitList]
      obtain ⟨h1, h2⟩ := ih1 hab
      obtain ⟨h3, h4⟩ := ih2 h2
      exact ⟨h3.trans h1, h4⟩

theorem visitList_main (tgt : Nat) (ns : List DomNode) (st : RState) :
    st.abort = false →
    (findFrom tgt st.length st.idx (textsOf ns) = none →
       visitList tgt ns st =
         { st with length := st.length + sumLens (textsOf ns)
                   idx := st.idx + (textsOf ns).length })
    ∧ (∀ p, findFrom tgt st.length st.idx (textsOf ns) = some p →
       (visitList tgt ns st).res = some p ∧ (visitList tgt ns st).abort = true) := by
  induction ns, st using visitList.induct tgt with
  | case1 st =>
      intro hab
      constructor
      · intro _
        rw [visitList]
        simp [textsOf, sumLens_nil]
      · intro p hp
        simp [textsOf, findFrom] at hp
  | case2 s rest st total h =>
      intro hab
      have hf : findFrom tgt st.length st.idx (textsOf (DomNode.text s :: rest))
          = some (st.idx, tgt - st.length) := by
        rw [textsOf, findFrom, if_pos h.1]
      constructor
      · intro hn; rw [hf] at hn; exact absurd hn (by simp)
      · intro p hp
        rw [hf] at hp
        injection hp with hp
        rw [visitList, if_pos h, ← hp]
        exact ⟨rfl, rfl⟩
  | case3 s rest st total h ih =>
      intro hab
      have hc : ¬ tgt ≤ st.length + s.length := by
        intro hle; exact h ⟨hle, hab⟩
      have hf : findFrom tgt st.length st.idx (textsOf (DomNode.text s :: rest))
          = findFrom tgt (st.length + s.length) (st.idx + 1) (textsOf rest) := by
        rw [textsOf, findFrom, if_neg hc]
      have ih' := ih hab
      constructor
      · intro hn
        rw [hf] at hn
        rw [visitList, if_neg h]
        rw [ih'.1 hn]
        have e1 : st.length + s.length + sumLens (textsOf rest)
            = st.length + sumLens (textsOf (DomNode.text s :: rest)) := by
          rw [textsOf, sumLens_cons]; omega
        have e2 : st.idx + 1 + (textsOf rest).length
            = st.idx + (textsOf (DomNode.text s :: rest)).length := by
          rw [textsOf]; simp only [List.length_cons]; omega
        simp only at e1 e2 ⊢
        rw [e1, e2]
      · intro p hp
        rw [hf] at hp
        rw [visitList, if_neg h]
        exact ih'.2 p hp
  | case4 cs rest st ih1 ih2 =>
      intro hab
      have ih1' := ih1 hab
      rw [visitList]
      cases hcs : findFrom tgt st.length st.idx (textsOf cs) with
      | none =>
          have hinner := ih1'.1 hcs
          have habort : (visitList tgt cs st).abort = false := by rw [hinner]; exact hab
          have ih2' := ih2 habort
          have hlen : (visitList tgt cs st).length = st.length + sumLens (textsOf cs) := by
            rw [hinner]
          have hidx : (visitList tgt cs st).idx = st.idx + (textsOf cs).length := by
            rw [hinner]
          constructor
          · intro hn
            rw [textsOf] at hn
            rw [findFrom_append_none tgt _ _ _ _ hcs] at hn
            rw [← hlen, ← hidx] at hn
            rw [ih2'.1 hn, hinner]
            have e1 : st.length + sumLens (textsOf cs) + sumLens (textsOf rest)
                = st.length + sumLens (textsOf (DomNode.elem cs :: rest)) := by
              rw [textsOf, sumLens_append]; omega
            have e2 : st.idx + (textsOf cs).length + (textsOf rest).length
                = st.idx + (textsOf (DomNode.elem cs :: rest)).length := by
              rw [textsOf]; simp only [List.length_append]; omega
            simp only at e1 e2 ⊢
            rw [e1, e2]
          · intro p hp
            rw [textsOf] at hp
            rw [findFrom_append_none tgt _ _ _ _ hcs] at hp
            rw [← hlen, ← hidx] at hp
            exact ih2'.2 p hp
      | some p =>
          have hinner := ih1'.2 p hcs
          have hpres := visitList_abort tgt rest (visitList tgt cs st) hinner.2
          have hf : findFrom tgt st.length st.idx (textsOf (DomNode.elem cs :: rest)) = some p := by
            rw [textsOf]
            exact findFrom_append_some tgt _ _ _ _ _ hcs
          constructor
          · intro hn; rw [hf] at hn; exact absurd hn (by simp)
          · intro q hq
            rw [hf] at hq
            injection hq with hq
            rw [← hq]
            exact ⟨hpres.1.trans hinner.1, hpres.2⟩

theorem restoreRes_eq_findFrom (root : DomNode) (tgt : Nat) :
    restoreRes root tgt = findFrom tgt 0 0 (textNodesUnder root) := by
  have h := visitList_main tgt (childNodes root)
    { length := 0, abort := false, res := none, idx := 0 } rfl
  cases hf : findFrom tgt 0 0 (textNodesUnder root) with
  | none =>
      rw [restoreRes, h.1 hf]
  | some p =>
      rw [restoreRes]
      exact (h.2 p hf).1

theorem cumLens_zero (ts : List String) : cumLens ts 0 = 0 := rfl

theorem cumLens_succ (s : String) (ts : List String) (k : Nat) :
    cumLens (s :: ts) (k + 1) = s.length + cumLens ts k := by
  simp [cumLens, List.take, sumLens_cons]

theorem cumLens_add_le (ts : List String) :
    ∀ k, k < ts.length → cumLens ts k + (ts.getD k "").length ≤ sumLens ts := by
  induction ts with
  | nil => intro k hk; simp at hk
  | cons s rest ih =>
      intro k hk
      cases k with
      | zero => simp [cumLens_zero, List.getD, sumLens_cons]
      | succ k =>
          rw [cumLens_succ, sumLens_cons]
          have := ih k (by simpa using hk)
          simp only [List.getD_cons_succ]
          omega

theorem findFrom_success (tgt : Nat) (ts : List String) :
    ∀ acc idx, acc ≤ tgt → tgt ≤ acc + sumLens ts → ts ≠ [] →
    ∃ j o2, j < ts.length ∧ findFrom tgt acc idx ts = some (idx + j, o2)
      ∧ acc + cumLens ts j + o2 = tgt := by
  induction ts with
  | nil => intro acc idx _ _ hne; exact absurd rfl hne
  | cons s rest ih =>
      intro acc idx hlo hhi _
      by_cases hc : tgt ≤ acc + s.length
      · refine ⟨0, tgt - acc, by simp, ?_, ?_⟩
        · rw [findFrom, if_pos hc]; norm_num
        · rw [cumLens_zero]; omega
      · have hne : rest ≠ [] := by
          intro h; rw [h, sumLens_cons, sumLens_nil] at hhi; omega
        obtain ⟨j, o2, hj, heq, hoff⟩ := ih (acc + s.length) (idx + 1)
          (by omega) (by rw [sumLens_cons] at hhi; omega) hne
        refine ⟨j + 1, o2, by simpa using hj, ?_, ?_⟩
        · rw [findFrom, if_neg hc, heq]
          have e1 : idx + 1 + j = idx + (j + 1) := by omega
          rw [e1]
        · rw [cumLens_succ]; omega

theorem findFrom_exact (tgt : Nat) (ts : List String) :
    ∀ acc idx k, k < ts.length
      → acc + cumLens ts k < tgt
      → tgt ≤ acc + cumLens ts (k + 1)
      → findFrom tgt acc idx ts = some (idx + k, tgt - (acc + cumLens ts k)) := by
  induction ts with
  | nil => intro acc idx k hk; simp at hk
  | cons s rest ih =>
      intro acc idx k hk hlo hhi
      cases k with
      | zero =>
          rw [cumLens_zero] at hlo
          rw [cumLens_succ, cumLens_zero] at hhi
          rw [findFrom, if_pos (by omega : tgt ≤ acc + s.length)]
          rw [cumLens_zero]
          norm_num
      | succ k =>
          rw [cumLens_succ] at hlo
          rw [cumLens_succ] at hhi
          have hc : ¬ tgt ≤ acc + s.length := by
            have : 0 ≤ cumLens rest k := Nat.zero_le _
            omega
          rw [findFrom, if_neg hc]
          have hrec := ih (acc + s.length) (idx + 1) k (by simpa using hk) (by omega) (by omega)
          rw [hrec]
          have e1 : idx + 1 + k = idx + (k + 1) := by omega
          have e2 : acc + s.length + cumLens rest k = acc + cumLens (s :: rest) (k + 1) := by
            rw [cumLens_succ]; omega
          rw [e1, e2]

theorem onkeypress_records (e : Editable) (h : e.pushedToHistory = false) :
    e.onkeypress = { (e.addToHistory.emit "change") with pushedToHistory := true } := by
  rw [Editable.onkeypress, h]
  rfl

theorem onkeypress_skips (e : Editable) (h : e.pushedToHistory = true) :
    e.onkeypress = e := by
  rw [Editable.onkeypress, h]
  rfl

theorem onkeypress_flag (e : Editable) : (e.onkeypress).pushedToHistory = true := by
  rw [Editable.onkeypress]
  cases h : e.pushedToHistory <;> simp [h, Editable.emit, Editable.addToHistory]

theorem autosaveFire_flag (e : Editable) : (e.autosaveFire).pushedToHistory = false := rfl

theorem countRecords_flagged (evs : List Ev) :
    ∀ e : Editable, Ev.fire ∉ evs → e.pushedToHistory = true →
    countRecords e evs = 0 := by
  induction evs with
  | nil => intro e _ _; rfl
  | cons ev rest ih =>
      intro e hnf hp
      cases ev with
      | keypress =>
          rw [countRecords, hp, onkeypress_skips e hp, if_pos rfl]
          have := ih e (fun hm => hnf (List.mem_cons_of_mem _ hm)) hp
          omega
      | fire => exact absurd (List.mem_cons_self _ _) hnf

theorem countRecords_le_one (evs : List Ev) :
    ∀ e : Editable, Ev.fire ∉ evs → countRecords e evs ≤ 1 := by
  induction evs with
  | nil => intro e _; exact Nat.zero_le 1
  | cons ev rest ih =>
      intro e hnf
      cases ev with
      | keypress =>
          have hrest : Ev.fire ∉ rest := fun hm => hnf (List.mem_cons_of_mem _ hm)
          cases hp : e.pushedToHistory with
          | true =>
              rw [countRecords, hp, onkeypress_skips e hp, if_pos rfl]
              have := countRecords_flagged rest e hrest hp
              omega
          | false =>
              rw [countRecords, hp, if_neg (by simp)]
              have : countRecords e.onkeypress rest = 0 :=
                countRecords_flagged rest e.onkeypress hrest (onkeypress_flag e)
              omega
      | fire => exact absurd (List.mem_cons_self _ _) hnf

/-- C1 (code bug): on a fresh controller with prior snapshots "a" and "ab" and
live contents "abc", the first `undo()` records nothing — `isFirstUndo` is
never set to `true` anywhere in the source, so the capture branch is dead:
the history stays at two entries and `redo()` yields the stepped-from
snapshot "ab", not the live "abc" the claim (and the source's own comment)
promises. -/
theorem c1_first_undo_captures_nothing :
    (Editable.undo (mkEditable { html := "abc", cursor := 3 }
        [{ content := "a", atOffset := 1 }, { content := "ab", atOffset := 2 }])).1.history.vals.length = 2
    ∧ (Editable.redo (Editable.undo (mkEditable { html := "abc", cursor := 3 }
        [{ content := "a", atOffset := 1 }, { content := "ab", atOffset := 2 }])).1).1.el.html = "ab"
    ∧ ("ab" : String) ≠ "abc" := by
  decide

/-- C2: starting from an empty history, after `addToHistory()` with element
contents "a" and then "ab", `undo()` sets the contents to "a" and makes
`state("redo")` true, and a subsequent `redo()` restores "ab". -/
theorem c2_addToHistory_undo_redo_scenario :
    (Editable.undo (Editable.addToHistory
        { Editable.addToHistory (mkEditable { html := "a", cursor := 1 } []) with
            el := { html := "ab", cursor := 2 } })).1.el.html = "a"
    ∧ (Editable.undo (Editable.addToHistory
        { Editable.addToHistory (mkEditable { html := "a", cursor := 1 } []) with
            el := { html := "ab", cursor := 2 } })).1.state (fun _ => false) "redo" = true
    ∧ (Editable.redo (Editable.undo (Editable.addToHistory
        { Editable.addToHistory (mkEditable { html := "a", cursor := 1 } []) with
            el := { html := "ab", cursor := 2 } })).1).1.el.html = "ab" := by
  decide

/-- C3 counterexample: capturing the non-collapsed selection [start (0,0),
end (0,1)] in `<el>"ab"</el>` and restoring does not reproduce the same
boundaries — `position(el)` keeps only the end offset and restore collapses
to it. -/
theorem c3_non_collapsed_counterexample :
    restoreSel (DomNode.elem [DomNode.text "ab"])
        (positionCapture (DomNode.elem [DomNode.text "ab"])
          { startP := { node := 0, off := 0 }, endP := { node := 0, off := 1 } })
      ≠ some { startP := { node := 0, off := 0 }, endP := { node := 0, off := 1 } } := by
  simp +decide [restoreSel, restoreRes, visitList, childNodes, positionCapture,
    textNodesUnder, textsOf, offsetOfPoint, cumLens, sumLens]

/-- C3 (amended): for any selection end point inside the tree, capturing and
restoring yields a collapsed selection whose global flattened-text offset
equals the captured offset (the offset of the original selection's end);
boundaries of non-collapsed selections are not preserved. -/
theorem c3_capture_restore_offset (root : DomNode) (sel : Selection)
    (hk : sel.endP.node < (textNodesUnder root).length)
    (ho : sel.endP.off ≤ ((textNodesUnder root).getD sel.endP.node "").length) :
    ∃ sel2 : Selection,
      restoreSel root (positionCapture root sel) = some sel2
      ∧ sel2.startP = sel2.endP
      ∧ offsetOfPoint (textNodesUnder root) sel2.endP = positionCapture root sel := by
  have hne : textNodesUnder root ≠ [] := by
    intro hnil; rw [hnil] at hk; simp at hk
  have hcap : positionCapture root sel
      = cumLens (textNodesUnder root) sel.endP.node + sel.endP.off := rfl
  have hle : positionCapture root sel ≤ sumLens (textNodesUnder root) := by
    have := cumLens_add_le (textNodesUnder root) sel.endP.node hk
    omega
  obtain ⟨j, o2, hj, heq, hoff⟩ := findFrom_success (positionCapture root sel)
    (textNodesUnder root) 0 0 (Nat.zero_le _) (by omega) hne
  refine ⟨{ startP := { node := j, off := o2 }, endP := { node := j, off := o2 } }, ?_, rfl, ?_⟩
  · unfold restoreSel
    rw [restoreRes_eq_findFrom, heq]
    simp
  · show cumLens (textNodesUnder root) j + o2 = positionCapture root sel
    omega

/-- C3 witness: the collapsed selection at offset 1 of "cd" in
`<el>"ab","cd"</el>` round-trips to a collapsed selection at the same global
offset. -/
theorem c3_capture_restore_offset_witness :
    ∃ sel2 : Selection,
      restoreSel (DomNode.elem [DomNode.text "ab", DomNode.text "cd"])
          (positionCapture (DomNode.elem [DomNode.text "ab", DomNode.text "cd"])
            { startP := { node := 1, off := 1 }, endP := { node := 1, off := 1 } }) = some sel2
      ∧ sel2.startP = sel2.endP
      ∧ offsetOfPoint (textNodesUnder (DomNode.elem [DomNode.text "ab", DomNode.text "cd"])) sel2.endP
          = positionCapture (DomNode.elem [DomNode.text "ab", DomNode.text "cd"])
              { startP := { node := 1, off := 1 }, endP := { node := 1, off := 1 } } :=
  c3_capture_restore_offset _ _
    (by simp +decide [textNodesUnder, childNodes, textsOf])
    (by simp +decide [textNodesUnder, childNodes, textsOf])

/-- C4: for every controller whose history state is reachable through the
stack's lifecycle, `state("undo")` is true iff `i > 0`, and `state("redo")`
is true iff `i` is strictly below the last index of the snapshot sequence. -/
theorem c4_state_undo_redo_iff (e : Editable) (host : String → Bool)
    (hr : ReachableHistory e.history) :
    (e.state host "undo" = true ↔ 0 < e.history.i)
    ∧ (e.state host "redo" = true ↔ e.history.i < (e.history.vals.length : Int) - 1) := by
  constructor <;> simp [Editable.state]

/-- C4 witness at a concrete reachable single-snapshot history. -/
theorem c4_state_undo_redo_iff_witness :
    ((mkEditable { html := "a", cursor := 1 } [{ content := "a", atOffset := 1 }]).state
        (fun _ => false) "undo" = true
      ↔ 0 < (mkEditable { html := "a", cursor := 1 } [{ content := "a", atOffset := 1 }]).history.i)
    ∧ ((mkEditable { html := "a", cursor := 1 } [{ content := "a", atOffset := 1 }]).state
        (fun _ => false) "redo" = true
      ↔ (mkEditable { html := "a", cursor := 1 } [{ content := "a", atOffset := 1 }]).history.i
          < ((mkEditable { html := "a", cursor := 1 }
              [{ content := "a", atOffset := 1 }]).history.vals.length : Int) - 1) :=
  c4_state_undo_redo_iff _ _ (ReachableHistory.max _ 100 (ReachableHistory.init _))

/-- C5 counterexample: with nothing to step back to, `undo()` takes the bare
`return` branch — it does not return the controller (it returns undefined),
contrary to the claimed fluent contract for both operations. -/
theorem c5_undo_noop_counterexample :
    (Editable.undo (mkEditable { html := "a", cursor := 1 }
      [{ content := "a", atOffset := 1 }])).2 = false := by
  decide

/-- C5 (amended): with no step back available, `undo()` leaves the controller
(content, history, flags, trace) unchanged but returns undefined; with no
step forward available, `redo()` leaves the controller unchanged and returns
the controller itself. -/
theorem c5_noop_behaviour (e : Editable) (hf : e.isFirstUndo = false) :
    (e.history.i ≤ 0 → Editable.undo e = (e, false))
    ∧ ((e.history.vals.length : Int) - 1 ≤ e.history.i → Editable.redo e = (e, true)) := by
  obtain ⟨hh, hel, f, p, em⟩ := e
  have hf2 : f = false := hf
  subst hf2
  constructor
  · intro h
    have hp : hh.prev = (hh, none) := by rw [History.prev, if_pos h]
    simp only [Editable.undo, Bool.false_eq_true, if_false, hp]
  · intro h
    have hp : hh.next = (hh, none) := by rw [History.next, if_pos h]
    simp only [Editable.redo, hp]

/-- C5 witness: on a freshly constructed controller with an empty stack both
no-op branches apply. -/
theorem c5_noop_behaviour_witness :
    Editable.undo (mkEditable { html := "a", cursor := 1 } [])
        = (mkEditable { html := "a", cursor := 1 } [], false)
    ∧ Editable.redo (mkEditable { html := "a", cursor := 1 } [])
        = (mkEditable { html := "a", cursor := 1 } [], true) :=
  ⟨(c5_noop_behaviour (mkEditable { html := "a", cursor := 1 } []) rfl).1 (by decide),
   (c5_noop_behaviour (mkEditable { html := "a", cursor := 1 } []) rfl).2 (by decide)⟩

/-- C6 counterexample: a successful `undo()` emits only `state` — no `change`
notification is emitted, contrary to the claim. -/
theorem c6_change_not_emitted_counterexample :
    (Editable.undo (mkEditable { html := "ab", cursor := 2 }
        [{ content := "a", atOffset := 1 }, { content := "ab", atOffset := 2 }])).1.emitted
      = ["state"]
    ∧ "change" ∉ (Editable.undo (mkEditable { html := "ab", cursor := 2 }
        [{ content := "a", atOffset := 1 }, { content := "ab", atOffset := 2 }])).1.emitted := by
  decide

/-- C6 (amended): every successful `undo()` (with `isFirstUndo` clear, as it
always is) and every successful `redo()` replaces the element's contents with
the snapshot's contents, restores the caret from the snapshot's stored
offset, and emits exactly one `state` notification (no `change`), returning
the controller. -/
theorem c6_success_effects :
    (∀ (e : Editable) (h2 : History) (buf : Snapshot),
      e.isFirstUndo = false → e.history.prev = (h2, some buf) →
      Editable.undo e =
        ({ e with
            history := h2
            el := { html := buf.content, cursor := buf.atOffset }
            emitted := e.emitted ++ ["state"] }, true))
    ∧ (∀ (e : Editable) (h2 : History) (buf : Snapshot),
      e.history.next = (h2, some buf) →
      Editable.redo e =
        ({ e with
            history := h2
            el := { html := buf.content, cursor := buf.atOffset }
            emitted := e.emitted ++ ["state"] }, true)) := by
  constructor
  · intro e h2 buf hf hp
    simp only [Editable.undo, hf, Bool.false_eq_true, if_false, hp, Editable.emit]
  · intro e h2 buf hp
    simp only [Editable.redo, hp, Editable.emit]

/-- C6 witness: a concrete successful undo and a concrete successful redo,
with their full effect on contents, caret, history and trace. -/
theorem c6_success_effects_witness :
    Editable.undo (mkEditable { html := "ab", cursor := 2 }
        [{ content := "a", atOffset := 1 }, { content := "b", atOffset := 1 }])
      = ({ history := { vals := [{ content := "a", atOffset := 1 },
                                 { content := "b", atOffset := 1 }], i := 0, capacity := 100 }
           el := { html := "a", cursor := 1 }
           isFirstUndo := false
           pushedToHistory := false
           emitted := ["state"] }, true)
    ∧ Editable.redo { history := { vals := [{ content := "a", atOffset := 1 },
                                            { content := "b", atOffset := 1 }], i := 0, capacity := 100 }
                      el := { html := "a", cursor := 1 }
                      isFirstUndo := false
                      pushedToHistory := false
                      emitted := [] }
      = ({ history := { vals := [{ content := "a", atOffset := 1 },
                                 { content := "b", atOffset := 1 }], i := 1, capacity := 100 }
           el := { html := "b", cursor := 1 }
           isFirstUndo := false
           pushedToHistory := false
           emitted := ["state"] }, true) := by
  constructor
  · exact c6_success_effects.1
      (mkEditable { html := "ab", cursor := 2 }
        [{ content := "a", atOffset := 1 }, { content := "b", atOffset := 1 }])
      { vals := [{ content := "a", atOffset := 1 },
                 { content := "b", atOffset := 1 }], i := 0, capacity := 100 }
      { content := "a", atOffset := 1 } rfl (by decide)
  · exact c6_success_effects.2
      { history := { vals := [{ content := "a", atOffset := 1 },
                              { content := "b", atOffset := 1 }], i := 0, capacity := 100 }
        el := { html := "a", cursor := 1 }
        isFirstUndo := false
        pushedToHistory := false
        emitted := [] }
      { vals := [{ content := "a", atOffset := 1 },
                 { content := "b", atOffset := 1 }], i := 1, capacity := 100 }
      { content := "b", atOffset := 1 } (by decide)

/-- C7 counterexample: in `<el>"ab","cd"</el>` the boundary offset 2 resolves
to the end of the first text node, `(0, 2)` — not to the start of the next
node `(1, 0)` as the claim's boundary sentence states. -/
theorem c7_boundary_counterexample :
    restoreRes (DomNode.elem [DomNode.text "ab", DomNode.text "cd"]) 2 = some (0, 2)
    ∧ ((0, 2) : Nat × Nat) ≠ (1, 0) := by
  constructor
  · simp +decide [restoreRes, visitList, childNodes]
  · decide

/-- C7 (amended): restore equals the declarative scan — the caret goes into
the first text node in document order whose cumulative flattened length
reaches the target, at local offset `target - cumulativeBefore`; hence an
offset on a node boundary lands at the END of the earlier node (local offset
= that node's length), not at the start of the next node. -/
theorem c7_restore_first_match (root : DomNode) (tgt : Nat) :
    restoreRes root tgt = findFrom tgt 0 0 (textNodesUnder root)
    ∧ (∀ k, k < (textNodesUnder root).length
        → cumLens (textNodesUnder root) k < tgt
        → tgt ≤ cumLens (textNodesUnder root) (k + 1)
        → restoreRes root tgt = some (k, tgt - cumLens (textNodesUnder root) k)) := by
  refine ⟨restoreRes_eq_findFrom root tgt, ?_⟩
  intro k hk hlo hhi
  rw [restoreRes_eq_findFrom]
  have h := findFrom_exact tgt (textNodesUnder root) 0 0 k hk (by omega) (by omega)
  simpa using h

/-- C7 witness: offset 5 in `<el>"ab","cd","ef"</el>` falls in the third text
node (cumulative 4 < 5 ≤ 6) at local offset 1. -/
theorem c7_restore_first_match_witness :
    restoreRes (DomNode.elem [DomNode.text "ab", DomNode.text "cd", DomNode.text "ef"]) 5
      = some (2, 1) := by
  have h := (c7_restore_first_match
      (DomNode.elem [DomNode.text "ab", DomNode.text "cd", DomNode.text "ef"]) 5).2 2
    (by simp +decide [textNodesUnder, childNodes, textsOf])
    (by simp +decide [textNodesUnder, childNodes, textsOf, cumLens, sumLens])
    (by simp +decide [textNodesUnder, childNodes, textsOf, cumLens, sumLens])
  simpa [textNodesUnder, childNodes, textsOf, cumLens, sumLens] using h

/-- C8 counterexample: calling `contents` with a string leaves the element's
contents unchanged — there is no setter in the source, the argument is
ignored. -/
theorem c8_setter_counterexample :
    (Editable.contentsWith (mkEditable { html := "a", cursor := 1 } []) "xyz").1
        = mkEditable { html := "a", cursor := 1 } []
    ∧ (Editable.contentsWith (mkEditable { html := "a", cursor := 1 } []) "xyz").1.el.html
        ≠ "xyz" := by
  decide

/-- C8 (amended): `contents()` returns the serialized contents of the bound
element; calling it with a string ignores the argument, changes nothing, and
still returns the current contents. -/
theorem c8_contents_getter_only (e : Editable) (s : String) :
    Editable.contents e = e.el.html ∧ Editable.contentsWith e s = (e, e.el.html) :=
  ⟨rfl, rfl⟩

/-- C9: between two consecutive autosave firings at most one history entry is
recorded via key presses — the first key press since the last reset calls
`addToHistory`, emits `change` and sets `pushedToHistory`; further key
presses do nothing; and the autosave callback is what clears the flag. -/
theorem c9_keypress_coalescing (e : Editable) (evs : List Ev)
    (hnf : Ev.fire ∉ evs) :
    countRecords e evs ≤ 1
    ∧ (e.pushedToHistory = false →
        e.onkeypress = { (e.addToHistory.emit "change") with pushedToHistory := true })
    ∧ (e.pushedToHistory = true → e.onkeypress = e)
    ∧ (e.autosaveFire).pushedToHistory = false :=
  ⟨countRecords_le_one evs e hnf,
   fun h => onkeypress_records e h,
   fun h => onkeypress_skips e h,
   autosaveFire_flag e⟩

/-- C9 witness: two key presses with no intervening autosave record exactly
one entry, and the per-event equations hold at a fresh controller. -/
theorem c9_keypress_coalescing_witness :
    countRecords (mkEditable { html := "a", cursor := 1 } []) [Ev.keypress, Ev.keypress] ≤ 1
    ∧ ((mkEditable { html := "a", cursor := 1 } []).pushedToHistory = false →
        (mkEditable { html := "a", cursor := 1 } []).onkeypress
          = { ((mkEditable { html := "a", cursor := 1 } []).addToHistory.emit "change") with
              pushedToHistory := true })
    ∧ ((mkEditable { html := "a", cursor := 1 } []).pushedToHistory = true →
        (mkEditable { html := "a", cursor := 1 } []).onkeypress
          = mkEditable { html := "a", cursor := 1 } [])
    ∧ ((mkEditable { html := "a", cursor := 1 } []).autosaveFire).pushedToHistory = false :=
  c9_keypress_coalescing (mkEditable { html := "a", cursor := 1 } [])
    [Ev.keypress, Ev.keypress] (by decide)

/-- C10: calling `Editable(el, stack)` as a plain function returns exactly
what `new Editable(el, stack)` constructs — the guard re-dispatches to the
constructor, and for a present element both yield the fully constructed
instance. -/
theorem c10_plain_call_constructs (el : El) (stack : List Snapshot) :
    editableFn (some el) stack = editableCtor (some el) stack
    ∧ editableFn (some el) stack = Except.ok (mkEditable el stack) :=
  ⟨rfl, rfl⟩
